import Mathlib

/-!
# KPL-UI bulk import: a shallow embedding of `src/utils/bulkImport.js`

This file embeds the two utilities of `src/utils/bulkImport.js` — the bulk
text parser `parsePlayerText` and the sequential bulk import runner
`bulkImportPlayers` — and proves the specification claims about them.

JavaScript strings are modelled as Lean `String`s; the handful of string
primitives the source uses (`split('\n')`, `trim`, case-insensitive suffix
regex test, suffix removal) are given structurally recursive models over
`List Char` so that every definition evaluates by kernel reduction.
-/

namespace KPLUI

/-! ## String primitives (models of the JavaScript operations used) -/

/-- Model of JavaScript `text.split('\n')`: splits at every newline; the
empty string yields `[""]`, and separators at the ends yield empty parts. -/
def splitNlChars : List Char → List (List Char)
  | [] => [[]]
  | c :: rest =>
    if c = '\n' then [] :: splitNlChars rest
    else
      match splitNlChars rest with
      | [] => [[c]]
      | l :: ls => (c :: l) :: ls

/-- `text.split('\n')` on `String`s. -/
def splitNl (s : String) : List String :=
  (splitNlChars s.data).map fun l => String.mk l

/-- Model of JavaScript `String.prototype.trim`: drop whitespace from both
ends. -/
def trimChars (l : List Char) : List Char :=
  ((l.dropWhile Char.isWhitespace).reverse.dropWhile Char.isWhitespace).reverse

/-- `s.trim()` on `String`s. -/
def jsTrim (s : String) : String :=
  String.mk (trimChars s.data)

/-- `l₂` is a suffix of `l₁` (by decidable list equality). -/
def endsWithChars (l₁ l₂ : List Char) : Bool :=
  decide (l₂.length ≤ l₁.length) && (l₁.drop (l₁.length - l₂.length) == l₂)

/-- Model of the JavaScript regex test `/kw$/i.test(s)` for a pattern `kw`
made only of lowercase ASCII letters and spaces: lowercase `s` (ASCII case
folding, as the non-Unicode `i` flag does for ASCII patterns) and check that
`kw` is a suffix. -/
def suffixTestCI (kw s : String) : Bool :=
  endsWithChars (s.data.map Char.toLower) kw.data

/-- Model of `s.replace(/kw$/i, '')` under the assumption `suffixTestCI kw s`:
the regex match is exactly the last `kw.length` characters, so removal is
`dropRight`. -/
def dropSuffix (s : String) (n : Nat) : String :=
  String.mk (s.data.take (s.data.length - n))

/-! ## The parser (`parsePlayerText`) -/

/-- A parsed player record, as built by `parsePlayerText`:
`{name, position, jersey_number: null, team_id: null}`. The two numeric
fields are `Option Nat` (JavaScript `null` ↦ `none`). -/
structure PlayerRecord where
  name : String
  position : String
  jersey_number : Option Nat
  team_id : Option Nat
deriving DecidableEq, Repr

/-- The `positionKeywords` array of `parsePlayerText`, in source order:
each entry is the (lowercase) suffix pattern and the position label. -/
def positionKeywords : List (String × String) :=
  [("batsman", "Batsman"),
   ("bowler", "Bowler"),
   ("batting all rounder", "Batting All Rounder"),
   ("bowling all rounder", "Bowling All Rounder"),
   ("all rounder", "All Rounder"),
   ("wicket keeper", "Wicket Keeper"),
   ("wicketkeeper", "Wicket Keeper")]

/-- The per-line body of `parsePlayerText`: find the first keyword pattern
whose suffix matches (case-insensitively); on a match, the name is the line
with the matched suffix removed and trimmed and the position is the label;
otherwise the whole line is the name and the position is `"Player"`. -/
def parseLine (trimmed : String) : PlayerRecord :=
  match positionKeywords.find? (fun kp => suffixTestCI kp.1 trimmed) with
  | some kp =>
    { name := jsTrim (dropSuffix trimmed kp.1.length), position := kp.2,
      jersey_number := none, team_id := none }
  | none =>
    { name := trimmed, position := "Player",
      jersey_number := none, team_id := none }

/-- `parsePlayerText`: split the text into lines, keep the lines whose
trimmed content is non-empty, and parse each (skipping a blank trimmed
line, as the `if (!trimmed) continue` in the source does). -/
def parsePlayerText (text : String) : List PlayerRecord :=
  let lines := (splitNl text).filter fun line => jsTrim line != ""
  lines.filterMap fun line =>
    let trimmed := jsTrim line
    if trimmed == "" then none
    else some (parseLine trimmed)

/-! ## The runner (`bulkImportPlayers`)

The runner is an async loop with three kinds of observable actions: the
progress callback invocation, the `playersAPI.create` request, and the
100 ms pause. We model a run as the sequence of these events plus the
accumulated `{success, failed, total}` result, parameterised by an
environment that decides, per loop iteration, whether the callback throws
and whether the create request fails, and with which error. -/

/-- A thrown JavaScript error, as the runner's `catch` inspects it:
`error.response?.data?.message` (a structured server message, when present)
and `error.message`. -/
structure JsError where
  responseMessage : Option String
  message : String
deriving DecidableEq, Repr

/-- `error.response?.data?.message || error.message`. -/
def jsErrorMessage (e : JsError) : String :=
  match e.responseMessage with
  | some m => m
  | none => e.message

/-- The request body of `playersAPI.create`, with the source's defaulting:
`position || 'Player'`, `jersey_number || null`, `team_id || null`
(`0` is falsy in JavaScript, hence the `some 0 ↦ none` cases). -/
structure CreateReq where
  player_name : String
  position : String
  jersey_number : Option Nat
  team_id : Option Nat
deriving DecidableEq, Repr

/-- Build the `playersAPI.create` request from a player record. -/
def mkCreateReq (p : PlayerRecord) : CreateReq :=
  { player_name := p.name,
    position := if p.position = "" then "Player" else p.position,
    jersey_number := match p.jersey_number with
      | some 0 => none
      | j => j,
    team_id := match p.team_id with
      | some 0 => none
      | t => t }

/-- An observable event of a bulk import run. -/
inductive Event where
  | progress (current total : Nat) (player : String)
  | create (req : CreateReq)
  | delay (ms : Nat)
deriving DecidableEq, Repr

/-- The environment of a run: whether an `onProgress` callback was passed,
and for each 0-based loop index, whether the callback throws there and
whether the create request fails there (`none` = no error). -/
structure ImportEnv where
  hasProgress : Bool
  progressErr : Nat → Option JsError
  createErr : Nat → Option JsError

/-- The body of the `try` block for loop index `i` on player `p`, with
batch size `N`: call `onProgress` if provided (which may throw), then issue
the create request (which may fail), then pause 100 ms. Returns the events
that occurred and the error the `catch` receives, if any. -/
def tryBody (env : ImportEnv) (N i : Nat) (p : PlayerRecord) :
    List Event × Option JsError :=
  let progressEvents : List Event :=
    if env.hasProgress then [Event.progress (i + 1) N p.name] else []
  if env.hasProgress && (env.progressErr i).isSome then
    (progressEvents, env.progressErr i)
  else
    match env.createErr i with
    | some e => (progressEvents ++ [Event.create (mkCreateReq p)], some e)
    | none => (progressEvents ++ [Event.create (mkCreateReq p), Event.delay 100], none)

/-- The error that the `catch` of loop iteration `i` receives, if any: the
callback's error when the callback is provided and throws, else the create
request's error. -/
def itemError (env : ImportEnv) (i : Nat) : Option JsError :=
  if env.hasProgress && (env.progressErr i).isSome then env.progressErr i
  else env.createErr i

/-- The loop of `bulkImportPlayers`, from index `i` on: run each item's
`try` body; on success push the name to `success`, on a caught error push
`{name, error.response?.data?.message || error.message}` to `failed`, and
continue with the next item either way. Returns the event trace and the
two accumulated lists. -/
def runFrom (env : ImportEnv) (N : Nat) :
    Nat → List PlayerRecord → List Event × List String × List (String × String)
  | _, [] => ([], [], [])
  | i, p :: rest =>
    let step := tryBody env N i p
    let next := runFrom env N (i + 1) rest
    match step.2 with
    | none => (step.1 ++ next.1, p.name :: next.2.1, next.2.2)
    | some e => (step.1 ++ next.1, next.2.1, (p.name, jsErrorMessage e) :: next.2.2)

/-- The aggregated result of a bulk import run:
`{success, failed, total}`. -/
structure ImportResults where
  success : List String
  failed : List (String × String)
  total : Nat
deriving DecidableEq, Repr

/-- `bulkImportPlayers`: run the loop over the whole batch and return
`{success, failed, total: players.length}`. -/
def bulkImportPlayers (env : ImportEnv) (players : List PlayerRecord) : ImportResults :=
  let run := runFrom env players.length 0 players
  { success := run.2.1, failed := run.2.2, total := players.length }

/-- The event trace of a bulk import run. -/
def bulkImportTrace (env : ImportEnv) (players : List PlayerRecord) : List Event :=
  (runFrom env players.length 0 players).1

/-! ## Structure lemmas about the runner -/

/-- The error caught for iteration `i` is `itemError env i`, independent of
the player. -/
theorem tryBody_snd (env : ImportEnv) (N i : Nat) (p : PlayerRecord) :
    (tryBody env N i p).2 = itemError env i := by
  unfold tryBody itemError
  cases h : env.hasProgress && (env.progressErr i).isSome <;> simp only [h] <;>
    cases env.createErr i <;> rfl

/-- Closed form of the loop from index `i`: the trace is the concatenation
of the per-item event lists, `success` collects (in order) the names of the
items with no error, and `failed` collects (in order) the names and
extracted messages of the items with an error. -/
theorem runFrom_eq (env : ImportEnv) (N : Nat) (i : Nat) (ps : List PlayerRecord) :
    runFrom env N i ps =
      (((List.enumFrom i ps).map fun ip => (tryBody env N ip.1 ip.2).1).flatten,
       (List.enumFrom i ps).filterMap fun ip =>
         if (itemError env ip.1).isSome then none else some ip.2.name,
       (List.enumFrom i ps).filterMap fun ip =>
         (itemError env ip.1).map fun e => (ip.2.name, jsErrorMessage e)) := by
  induction ps generalizing i with
  | nil => rfl
  | cons p rest ih =>
    simp only [runFrom, List.enumFrom, List.map_cons, List.flatten_cons,
      List.filterMap_cons, ih, tryBody_snd]
    cases h : itemError env i <;> simp [h]

/-- Explicit shape of the events of one loop iteration: the progress event
when a callback is supplied, then — unless the callback threw — the create
request, then — unless the create failed — the fixed 100 ms pause. -/
theorem tryBody_fst (env : ImportEnv) (N i : Nat) (p : PlayerRecord) :
    (tryBody env N i p).1 =
      (if env.hasProgress then [Event.progress (i + 1) N p.name] else []) ++
      (if env.hasProgress && (env.progressErr i).isSome then []
       else Event.create (mkCreateReq p) ::
         (if (env.createErr i).isSome then [] else [Event.delay 100])) := by
  unfold tryBody
  cases hb : env.hasProgress && (env.progressErr i).isSome <;> simp only [hb] <;>
    cases hc : env.createErr i <;> simp [hc]

/-- With a callback supplied, each iteration's events start with the
progress event. -/
theorem tryBody_fst_of_progress (env : ImportEnv) (N i : Nat) (p : PlayerRecord)
    (h : env.hasProgress = true) :
    (tryBody env N i p).1 =
      Event.progress (i + 1) N p.name ::
        (if (env.progressErr i).isSome then []
         else Event.create (mkCreateReq p) ::
           (if (env.createErr i).isSome then [] else [Event.delay 100])) := by
  rw [tryBody_fst]
  simp [h]

/-- The trace of a non-empty run is the first item's events followed by the
rest of the run. -/
theorem runFrom_fst_cons (env : ImportEnv) (N i : Nat) (q : PlayerRecord)
    (rest : List PlayerRecord) :
    (runFrom env N i (q :: rest)).1 =
      (tryBody env N i q).1 ++ (runFrom env N (i + 1) rest).1 := by
  simp only [runFrom]
  split <;> rfl

/-! ## Parser lemmas -/

/-- Spec-side restatement of the per-line algorithm of §4.1, following the
spec's words: test the line against the suffix keyword patterns
case-insensitively in the fixed priority order batsman, bowler, batting all
rounder, bowling all rounder, all rounder, wicket keeper, wicketkeeper; the
first pattern whose suffix matches wins, the matched suffix is stripped and
trimmed to produce the name and the pattern's label becomes the position;
if no suffix matches, the whole line is the name and the position defaults
to `"Player"`. -/
def parseLineSpec (trimmed : String) : PlayerRecord :=
  if suffixTestCI "batsman" trimmed then
    ⟨jsTrim (dropSuffix trimmed "batsman".length), "Batsman", none, none⟩
  else if suffixTestCI "bowler" trimmed then
    ⟨jsTrim (dropSuffix trimmed "bowler".length), "Bowler", none, none⟩
  else if suffixTestCI "batting all rounder" trimmed then
    ⟨jsTrim (dropSuffix trimmed "batting all rounder".length),
      "Batting All Rounder", none, none⟩
  else if suffixTestCI "bowling all rounder" trimmed then
    ⟨jsTrim (dropSuffix trimmed "bowling all rounder".length),
      "Bowling All Rounder", none, none⟩
  else if suffixTestCI "all rounder" trimmed then
    ⟨jsTrim (dropSuffix trimmed "all rounder".length), "All Rounder", none, none⟩
  else if suffixTestCI "wicket keeper" trimmed then
    ⟨jsTrim (dropSuffix trimmed "wicket keeper".length), "Wicket Keeper", none, none⟩
  else if suffixTestCI "wicketkeeper" trimmed then
    ⟨jsTrim (dropSuffix trimmed "wicketkeeper".length), "Wicket Keeper", none, none⟩
  else
    ⟨trimmed, "Player", none, none⟩

/-- The two output fields that are always `null`. -/
theorem parseLine_null_fields (s : String) :
    (parseLine s).jersey_number = none ∧ (parseLine s).team_id = none := by
  unfold parseLine
  cases h : positionKeywords.find? (fun kp => suffixTestCI kp.1 s) <;> simp

/-- `parsePlayerText` maps every kept line to exactly one record. -/
theorem filterMap_parse_length (l : List String)
    (h : ∀ x ∈ l, (jsTrim x == "") = false) :
    (l.filterMap fun line =>
      if jsTrim line == "" then none else some (parseLine (jsTrim line))).length
      = l.length := by
  induction l with
  | nil => rfl
  | cons a l ih =>
    have ha := h a (by simp)
    simp only [List.filterMap_cons, ha, Bool.false_eq_true, if_false, List.length_cons]
    rw [ih fun x hx => h x (by simp [hx])]

/-! ## Claim theorems: the parser -/

/-- C1: for every line, `parsePlayerText`'s per-line step tests the suffix
keyword patterns case-insensitively in the fixed priority order batsman,
bowler, batting all rounder, bowling all rounder, all rounder, wicket
keeper, wicketkeeper; the first matching suffix wins, is stripped and
trimmed to produce the name, and its label becomes the position — and in
particular "John Smith batting all rounder" parses to name "John Smith"
with position "Batting All Rounder", "John Smith all rounder" to
"John Smith" with "All Rounder", and "Sam BOWLER" to "Sam" with
"Bowler". -/
theorem parseLine_priority_order :
    (∀ s : String, parseLine s = parseLineSpec s) ∧
    parsePlayerText "John Smith batting all rounder" =
      [⟨"John Smith", "Batting All Rounder", none, none⟩] ∧
    parsePlayerText "John Smith all rounder" =
      [⟨"John Smith", "All Rounder", none, none⟩] ∧
    parsePlayerText "Sam BOWLER" = [⟨"Sam", "Bowler", none, none⟩] := by
  refine ⟨fun s => ?_, by decide, by decide, by decide⟩
  unfold parseLine parseLineSpec
  simp only [positionKeywords]
  cases h1 : suffixTestCI "batsman" s
  case true => rw [List.find?_cons_of_pos _ (by exact h1)]; simp [h1]
  case false =>
  rw [List.find?_cons_of_neg _ (by simp [h1])]
  cases h2 : suffixTestCI "bowler" s
  case true => rw [List.find?_cons_of_pos _ (by exact h2)]; simp [h1, h2]
  case false =>
  rw [List.find?_cons_of_neg _ (by simp [h2])]
  cases h3 : suffixTestCI "batting all rounder" s
  case true => rw [List.find?_cons_of_pos _ (by exact h3)]; simp [h1, h2, h3]
  case false =>
  rw [List.find?_cons_of_neg _ (by simp [h3])]
  cases h4 : suffixTestCI "bowling all rounder" s
  case true => rw [List.find?_cons_of_pos _ (by exact h4)]; simp [h1, h2, h3, h4]
  case false =>
  rw [List.find?_cons_of_neg _ (by simp [h4])]
  cases h5 : suffixTestCI "all rounder" s
  case true => rw [List.find?_cons_of_pos _ (by exact h5)]; simp [h1, h2, h3, h4, h5]
  case false =>
  rw [List.find?_cons_of_neg _ (by simp [h5])]
  cases h6 : suffixTestCI "wicket keeper" s
  case true =>
    rw [List.find?_cons_of_pos _ (by exact h6)]; simp [h1, h2, h3, h4, h5, h6]
  case false =>
  rw [List.find?_cons_of_neg _ (by simp [h6])]
  cases h7 : suffixTestCI "wicketkeeper" s
  case true =>
    rw [List.find?_cons_of_pos _ (by exact h7)]; simp [h1, h2, h3, h4, h5, h6, h7]
  case false =>
  rw [List.find?_cons_of_neg _ (by simp [h7])]
  simp [List.find?, h1, h2, h3, h4, h5, h6, h7]

/-- C5: the number of records returned by `parsePlayerText` equals the
number of lines whose trimmed content is non-empty, every record has
`jersey_number` and `team_id` null, and empty input yields the empty list
(the parser is a total function, so it never raises). -/
theorem parsePlayerText_record_count :
    (∀ text : String,
      (parsePlayerText text).length =
        ((splitNl text).filter fun line => jsTrim line != "").length ∧
      ∀ r ∈ parsePlayerText text, r.jersey_number = none ∧ r.team_id = none) ∧
    parsePlayerText "" = [] := by
  refine ⟨fun text => ⟨?_, ?_⟩, by decide⟩
  · unfold parsePlayerText
    refine filterMap_parse_length _ fun x hx => ?_
    have := List.of_mem_filter hx
    simpa using this
  · intro r hr
    unfold parsePlayerText at hr
    obtain ⟨line, -, hline⟩ := List.mem_filterMap.mp hr
    dsimp only at hline
    split at hline
    · simp at hline
    · obtain rfl : parseLine (jsTrim line) = r := by
        injection hline
      exact parseLine_null_fields _

/-- Witness for C5 at the text "Alex". -/
theorem parsePlayerText_record_count_witness :
    (parsePlayerText "Alex").length =
      ((splitNl "Alex").filter fun line => jsTrim line != "").length ∧
    (⟨"Alex", "Player", none, none⟩ : PlayerRecord).jersey_number = none ∧
    (⟨"Alex", "Player", none, none⟩ : PlayerRecord).team_id = none :=
  ⟨(parsePlayerText_record_count.1 "Alex").1,
   (parsePlayerText_record_count.1 "Alex").2 ⟨"Alex", "Player", none, none⟩ (by decide)⟩

/-- C6: a trimmed non-empty line matching none of the position keyword
suffixes parses to a record whose name is the whole line and whose position
is "Player". -/
theorem parseLine_no_keyword (s : String)
    (htrim : jsTrim s = s) (hne : s ≠ "")
    (hnokw : positionKeywords.all (fun kp => !(suffixTestCI kp.1 s)) = true) :
    parseLine s = ⟨s, "Player", none, none⟩ := by
  unfold parseLine
  have hfind : positionKeywords.find? (fun kp => suffixTestCI kp.1 s) = none := by
    rw [List.find?_eq_none]
    intro kp hkp
    have := List.all_eq_true.mp hnokw kp hkp
    simpa using this
  rw [hfind]

/-- Witness for C6 at the line "Alex". -/
theorem parseLine_no_keyword_witness :
    parseLine "Alex" = ⟨"Alex", "Player", none, none⟩ :=
  parseLine_no_keyword "Alex" (by decide) (by decide) (by decide)

/-- C9: a line consisting solely of a position keyword still yields a
record: its name is the empty string and its position is the keyword's
label, both through the per-line step and through `parsePlayerText`. -/
theorem parseLine_bare_keyword :
    ∀ kp ∈ positionKeywords,
      parseLine kp.1 = ⟨"", kp.2, none, none⟩ ∧
      parsePlayerText kp.1 = [⟨"", kp.2, none, none⟩] := by
  decide

/-- Witness for C9 at the keyword "batsman". -/
theorem parseLine_bare_keyword_witness :
    parseLine "batsman" = ⟨"", "Batsman", none, none⟩ ∧
    parsePlayerText "batsman" = [⟨"", "Batsman", none, none⟩] :=
  parseLine_bare_keyword ("batsman", "Batsman") (by decide)

/-! ## Runner lemmas -/

/-- Each item lands in exactly one of the two result lists. -/
theorem filterMap_partition_length (env : ImportEnv) (l : List (Nat × PlayerRecord)) :
    (l.filterMap fun ip =>
      if (itemError env ip.1).isSome then none else some ip.2.name).length +
    (l.filterMap fun ip =>
      (itemError env ip.1).map fun e => (ip.2.name, jsErrorMessage e)).length
      = l.length := by
  induction l with
  | nil => rfl
  | cons a l ih =>
    simp only [List.filterMap_cons]
    cases h : itemError env a.1 <;> simp [List.length_cons, ← ih] <;> omega

/-- The full trace is the concatenation of the per-item event lists. -/
theorem bulkImportTrace_eq (env : ImportEnv) (players : List PlayerRecord) :
    bulkImportTrace env players =
      ((List.enumFrom 0 players).map fun ip =>
        (tryBody env players.length ip.1 ip.2).1).flatten := by
  show (runFrom env players.length 0 players).1 = _
  rw [runFrom_eq]

/-- The data a progress event carries. -/
def progressOf : Event → Option (Nat × Nat × String)
  | Event.progress c t p => some (c, t, p)
  | _ => none

/-- With a callback supplied, one iteration contributes exactly one
progress event, carrying the 1-based index, the batch size, and the item's
name. -/
theorem tryBody_fst_progressOf (env : ImportEnv) (N i : Nat) (p : PlayerRecord)
    (h : env.hasProgress = true) :
    ((tryBody env N i p).1).filterMap progressOf = [(i + 1, N, p.name)] := by
  rw [tryBody_fst]
  cases hp : (env.progressErr i).isSome <;> cases hc : (env.createErr i).isSome <;>
    simp [h, hp, hc, progressOf]

/-- With a callback supplied, the progress events of a run from index `i`
are exactly one per item, in order. -/
theorem runFrom_progress_calls (env : ImportEnv) (N : Nat)
    (h : env.hasProgress = true) :
    ∀ (i : Nat) (ps : List PlayerRecord),
      ((runFrom env N i ps).1).filterMap progressOf =
        (List.enumFrom i ps).map fun ip => (ip.1 + 1, N, ip.2.name) := by
  intro i ps
  induction ps generalizing i with
  | nil => rfl
  | cons p rest ih =>
    rw [runFrom_fst_cons]
    simp only [List.filterMap_append, List.enumFrom_cons, List.map_cons,
      tryBody_fst_progressOf env N i p h, ih]
    rfl

/-! ## Claim theorems: the runner -/

/-- C2: for every batch, `success.length + failed.length` equals the batch
size, which is also `total`; `success` lists exactly the names of the
succeeding items in submission order and `failed` exactly the failing items
(name and extracted message) in submission order. -/
theorem bulkImport_partition (env : ImportEnv) (players : List PlayerRecord) :
    (bulkImportPlayers env players).success.length +
        (bulkImportPlayers env players).failed.length = players.length ∧
    (bulkImportPlayers env players).total = players.length ∧
    (bulkImportPlayers env players).success =
      (players.enum.filterMap fun ip =>
        if (itemError env ip.1).isSome then none else some ip.2.name) ∧
    (bulkImportPlayers env players).failed =
      players.enum.filterMap fun ip =>
        (itemError env ip.1).map fun e => (ip.2.name, jsErrorMessage e) := by
  have hrun := runFrom_eq env players.length 0 players
  have hs : (bulkImportPlayers env players).success =
      players.enum.filterMap fun ip =>
        if (itemError env ip.1).isSome then none else some ip.2.name := by
    show (runFrom env players.length 0 players).2.1 = _
    rw [hrun, List.enum_eq_enumFrom]
  have hf : (bulkImportPlayers env players).failed =
      players.enum.filterMap fun ip =>
        (itemError env ip.1).map fun e => (ip.2.name, jsErrorMessage e) := by
    show (runFrom env players.length 0 players).2.2 = _
    rw [hrun, List.enum_eq_enumFrom]
  refine ⟨?_, rfl, hs, hf⟩
  rw [hs, hf]
  simpa using filterMap_partition_length env players.enum

/-- C3: with a progress callback supplied, the callback is invoked exactly
once per item, in order, with `current` the 1-based item index (hence
strictly increasing 1..N), `total` the constant batch size, and `player`
the item's name — and each invocation opens its item's segment of the
trace, before any create request of that item. -/
theorem bulkImport_progress_calls (env : ImportEnv) (players : List PlayerRecord)
    (h : env.hasProgress = true) :
    (bulkImportTrace env players).filterMap progressOf =
      (players.enum.map fun ip => (ip.1 + 1, players.length, ip.2.name)) ∧
    bulkImportTrace env players =
      (players.enum.map fun ip =>
        Event.progress (ip.1 + 1) players.length ip.2.name ::
          (if (env.progressErr ip.1).isSome then []
           else Event.create (mkCreateReq ip.2) ::
             (if (env.createErr ip.1).isSome then [] else [Event.delay 100]))).flatten := by
  constructor
  · show ((runFrom env players.length 0 players).1).filterMap progressOf = _
    rw [runFrom_progress_calls env players.length h 0 players, List.enum_eq_enumFrom]
  · rw [bulkImportTrace_eq, List.enum_eq_enumFrom]
    congr 1
    exact List.map_congr_left fun (ip : Nat × PlayerRecord) _ =>
      tryBody_fst_of_progress env players.length ip.1 ip.2 h

/-! ## Concrete runs used by the witnesses and the counterexample -/

/-- A sample parsed player. -/
def samplePlayer : PlayerRecord := ⟨"A", "Batsman", none, none⟩

/-- A second sample parsed player. -/
def samplePlayerB : PlayerRecord := ⟨"B", "Bowler", none, none⟩

/-- A run with a callback in which nothing fails. -/
def envAllOk : ImportEnv := ⟨true, fun _ => none, fun _ => none⟩

/-- A server-side rejection with a structured message. -/
def sampleError : JsError :=
  ⟨some "Player already exists", "Request failed with status code 400"⟩

/-- A run with a callback in which every create request fails. -/
def envAllFail : ImportEnv := ⟨true, fun _ => none, fun _ => some sampleError⟩

/-- An error thrown by the progress callback itself. -/
def callbackError : JsError := ⟨none, "onProgress is not a function"⟩

/-- A run whose progress callback throws at every invocation. -/
def envCallbackThrows : ImportEnv := ⟨true, fun _ => some callbackError, fun _ => none⟩

/-- Witness for C3: the all-successful one-item run with a callback. -/
theorem bulkImport_progress_calls_witness :
    (bulkImportTrace envAllOk [samplePlayer]).filterMap progressOf =
      ([samplePlayer].enum.map fun ip => (ip.1 + 1, [samplePlayer].length, ip.2.name)) ∧
    bulkImportTrace envAllOk [samplePlayer] =
      ([samplePlayer].enum.map fun ip =>
        Event.progress (ip.1 + 1) [samplePlayer].length ip.2.name ::
          (if (envAllOk.progressErr ip.1).isSome then []
           else Event.create (mkCreateReq ip.2) ::
             (if (envAllOk.createErr ip.1).isSome then []
              else [Event.delay 100]))).flatten :=
  bulkImport_progress_calls envAllOk [samplePlayer] rfl

/-- All items of a run fail when every iteration has an error: `success`
stays empty and `failed` gets one entry per item. -/
theorem runFrom_all_failed (env : ImportEnv) (N : Nat) :
    ∀ (i : Nat) (ps : List PlayerRecord),
      (∀ k, i ≤ k → k < i + ps.length → (itemError env k).isSome) →
      (runFrom env N i ps).2.1 = [] ∧ (runFrom env N i ps).2.2.length = ps.length := by
  intro i ps
  induction ps generalizing i with
  | nil => intro _; exact ⟨rfl, rfl⟩
  | cons p rest ih =>
    intro hall
    have h0 : (itemError env i).isSome :=
      hall i (Nat.le_refl i) (by simp [Nat.lt_add_of_pos_right])
    obtain ⟨e, he⟩ := Option.isSome_iff_exists.mp h0
    have hrec := ih (i + 1) fun k hk1 hk2 => hall k (by omega) (by
      simp only [List.length_cons] at hk2 ⊢
      omega)
    constructor <;>
      simp [runFrom, tryBody_snd, he, hrec.1, hrec.2]

/-- C4: a failed submission is caught individually and never aborts the
loop; the recorded error message prefers the structured server message
`error.response.data.message` and falls back to `error.message`; a batch in
which every iteration errors yields an all-`failed` result of full length,
with one entry per item — the runner itself never throws (it is a total
function). -/
theorem bulkImport_failures_isolated (env : ImportEnv) (players : List PlayerRecord)
    (hall : ∀ k, k < players.length → (itemError env k).isSome) :
    (bulkImportPlayers env players).success = [] ∧
    (bulkImportPlayers env players).failed.length = players.length ∧
    (bulkImportPlayers env players).failed =
      players.enum.filterMap fun ip =>
        (itemError env ip.1).map fun e =>
          (ip.2.name,
           match e.responseMessage with
           | some m => m
           | none => e.message) := by
  have h := runFrom_all_failed env players.length 0 players
    (fun k _ hk2 => hall k (by omega))
  refine ⟨h.1, h.2, ?_⟩
  show (runFrom env players.length 0 players).2.2 = _
  rw [runFrom_eq, List.enum_eq_enumFrom]
  rfl

/-- Witness for C4: a one-item run whose create request is rejected. -/
theorem bulkImport_failures_isolated_witness :
    (bulkImportPlayers envAllFail [samplePlayer]).success = [] ∧
    (bulkImportPlayers envAllFail [samplePlayer]).failed.length = [samplePlayer].length ∧
    (bulkImportPlayers envAllFail [samplePlayer]).failed =
      [samplePlayer].enum.filterMap fun ip =>
        (itemError envAllFail ip.1).map fun e =>
          (ip.2.name,
           match e.responseMessage with
           | some m => m
           | none => e.message) :=
  bulkImport_failures_isolated envAllFail [samplePlayer] fun k hk => by
    have hk0 : k = 0 := by simpa using Nat.lt_one_iff.mp hk
    subst hk0
    decide

/-- C7: the trace decomposes per item as: the progress event (when a
callback is supplied), then — unless the callback threw — the create
request followed by a pause exactly when the create succeeded; and every
pause in the trace is the fixed, non-configurable 100 time units. -/
theorem bulkImport_delay_after_success (env : ImportEnv) (players : List PlayerRecord) :
    bulkImportTrace env players =
      (players.enum.map fun ip =>
        (if env.hasProgress then [Event.progress (ip.1 + 1) players.length ip.2.name]
         else []) ++
        (if env.hasProgress && (env.progressErr ip.1).isSome then []
         else Event.create (mkCreateReq ip.2) ::
           (if (env.createErr ip.1).isSome then [] else [Event.delay 100]))).flatten ∧
    ∀ ms, Event.delay ms ∈ bulkImportTrace env players → ms = 100 := by
  have htrace : bulkImportTrace env players =
      (players.enum.map fun ip =>
        (if env.hasProgress then [Event.progress (ip.1 + 1) players.length ip.2.name]
         else []) ++
        (if env.hasProgress && (env.progressErr ip.1).isSome then []
         else Event.create (mkCreateReq ip.2) ::
           (if (env.createErr ip.1).isSome then [] else [Event.delay 100]))).flatten := by
    rw [bulkImportTrace_eq, List.enum_eq_enumFrom]
    congr 1
    exact List.map_congr_left fun (ip : Nat × PlayerRecord) _ =>
      tryBody_fst env players.length ip.1 ip.2
  refine ⟨htrace, ?_⟩
  intro ms hms
  rw [htrace] at hms
  simp only [List.mem_flatten, List.mem_map] at hms
  obtain ⟨l, ⟨ip, hip, rfl⟩, hml⟩ := hms
  rw [List.mem_append] at hml
  rcases hml with hml | hml <;> (repeat' split at hml) <;> simp_all

/-- Witness for C7: the one-item all-successful run contains the pause. -/
theorem bulkImport_delay_after_success_witness :
    Event.delay 100 ∈ bulkImportTrace envAllOk [samplePlayer] ∧ (100 : Nat) = 100 :=
  ⟨by decide,
   (bulkImport_delay_after_success envAllOk [samplePlayer]).2 100 (by decide)⟩

/-- C8 counterexample: in the all-successful one-item run with a callback,
the trace is progress first, then the create request, then the pause — so
there are no positions at which the create request precedes the progress
callback, contradicting "the create request for item i is issued before the
callback reporting item i is invoked". -/
theorem progress_after_create_counterexample :
    bulkImportTrace envAllOk [samplePlayer] =
      [Event.progress 1 1 "A", Event.create ⟨"A", "Batsman", none, none⟩,
       Event.delay 100] ∧
    ¬ ∃ j k : Nat, j < k ∧
        (bulkImportTrace envAllOk [samplePlayer])[j]? =
          some (Event.create ⟨"A", "Batsman", none, none⟩) ∧
        (bulkImportTrace envAllOk [samplePlayer])[k]? =
          some (Event.progress 1 1 "A") := by
  have ht : bulkImportTrace envAllOk [samplePlayer] =
      [Event.progress 1 1 "A", Event.create ⟨"A", "Batsman", none, none⟩,
       Event.delay 100] := by decide
  refine ⟨ht, ?_⟩
  rintro ⟨j, k, hjk, hj, hk⟩
  rw [ht] at hj hk
  rcases k with _ | _ | _ | k
  · omega
  · simp at hk
  · simp at hk
  · simp at hk

/-- Every item that the callback lets through has its progress event
immediately followed by its create request in the trace. -/
theorem runFrom_progress_before_create (env : ImportEnv) (N : Nat)
    (h : env.hasProgress = true) :
    ∀ (i k : Nat) (ps : List PlayerRecord) (p : PlayerRecord),
      ps[k]? = some p → env.progressErr (i + k) = none →
      ∃ pre suf, (runFrom env N i ps).1 =
        pre ++ Event.progress (i + k + 1) N p.name ::
          Event.create (mkCreateReq p) :: suf := by
  intro i k ps
  induction ps generalizing i k with
  | nil => intro p hk _; simp at hk
  | cons q rest ih =>
    intro p hk hp
    cases k with
    | zero =>
      simp only [List.getElem?_cons_zero, Option.some.injEq] at hk
      subst hk
      rw [Nat.add_zero] at hp ⊢
      refine ⟨[], (if (env.createErr i).isSome then [] else [Event.delay 100]) ++
        (runFrom env N (i + 1) rest).1, ?_⟩
      rw [runFrom_fst_cons, tryBody_fst_of_progress env N i q h]
      simp [hp]
    | succ m =>
      have hidx : i + 1 + m = i + (m + 1) := by omega
      obtain ⟨pre, suf, hps⟩ := ih (i + 1) m p (by simpa using hk) (by rw [hidx]; exact hp)
      rw [hidx] at hps
      refine ⟨(tryBody env N i q).1 ++ pre, suf, ?_⟩
      rw [runFrom_fst_cons, hps, List.append_assoc]

/-- C8 amended: with a progress callback supplied, the callback invocation
for each item occurs before (indeed immediately before) that item's
submission attempt: the create request for item i is issued right after the
callback reporting item i is invoked, never before it. -/
theorem progress_before_create (env : ImportEnv) (players : List PlayerRecord)
    (i : Nat) (p : PlayerRecord)
    (h : env.hasProgress = true)
    (hi : players[i]? = some p)
    (hp : env.progressErr i = none) :
    ∃ pre suf, bulkImportTrace env players =
      pre ++ Event.progress (i + 1) players.length p.name ::
        Event.create (mkCreateReq p) :: suf := by
  obtain ⟨pre, suf, hps⟩ :=
    runFrom_progress_before_create env players.length h 0 i players p hi
      (by simpa using hp)
  refine ⟨pre, suf, ?_⟩
  show (runFrom env players.length 0 players).1 = _
  simpa using hps

/-- Witness for C8 (amended) on the all-successful one-item run. -/
theorem progress_before_create_witness :
    ∃ pre suf, bulkImportTrace envAllOk [samplePlayer] =
      pre ++ Event.progress (0 + 1) [samplePlayer].length samplePlayer.name ::
        Event.create (mkCreateReq samplePlayer) :: suf :=
  progress_before_create envAllOk [samplePlayer] 0 samplePlayer rfl rfl rfl

/-- C10: if the progress callback throws at item `i`, the item's whole
contribution to the trace is the single progress event — no create request
is issued for it, while the preceding and following items' events surround
it unchanged (the run continues) — and the item is recorded in `failed`
with the callback's error message. -/
theorem bulkImport_progress_throw (env : ImportEnv) (players : List PlayerRecord)
    (i : Nat) (p : PlayerRecord) (e : JsError)
    (h : env.hasProgress = true)
    (hi : players[i]? = some p)
    (he : env.progressErr i = some e) :
    bulkImportTrace env players =
      ((List.enumFrom 0 (players.take i)).map fun ip =>
        (tryBody env players.length ip.1 ip.2).1).flatten
        ++ Event.progress (i + 1) players.length p.name
        :: ((List.enumFrom (i + 1) (players.drop (i + 1))).map fun ip =>
             (tryBody env players.length ip.1 ip.2).1).flatten ∧
    (p.name, jsErrorMessage e) ∈ (bulkImportPlayers env players).failed := by
  obtain ⟨hlt, hg⟩ := List.getElem?_eq_some_iff.mp hi
  have herr : itemError env i = some e := by
    unfold itemError
    simp [h, he]
  constructor
  · have hsplit : players = players.take i ++ p :: players.drop (i + 1) := by
      conv_lhs => rw [← List.take_append_drop i players]
      rw [← List.getElem_cons_drop players i hlt, hg]
    have hN : (players.take i ++ p :: players.drop (i + 1)).length = players.length := by
      rw [← hsplit]
    have hseg : (tryBody env players.length i p).1 =
        [Event.progress (i + 1) players.length p.name] := by
      rw [tryBody_fst_of_progress env players.length i p h]
      simp [he]
    rw [bulkImportTrace_eq]
    conv_lhs => rw [hsplit]
    simp only [hN, List.enumFrom_append, List.length_take,
      Nat.min_eq_left (Nat.le_of_lt hlt), Nat.zero_add, List.enumFrom_cons,
      List.map_append, List.map_cons, List.flatten_append, List.flatten_cons]
    rw [hseg]
    simp
  · show (p.name, jsErrorMessage e) ∈ (runFrom env players.length 0 players).2.2
    rw [runFrom_eq]
    refine List.mem_filterMap.mpr ⟨(i, p), ?_, ?_⟩
    · rw [← List.enum_eq_enumFrom]
      exact List.mk_mem_enum_iff_getElem?.mpr hi
    · rw [herr]
      rfl

/-- Witness for C10: a two-item run whose callback throws at item 1. -/
theorem bulkImport_progress_throw_witness :
    bulkImportTrace envCallbackThrows [samplePlayer, samplePlayerB] =
      ((List.enumFrom 0 ([samplePlayer, samplePlayerB].take 0)).map fun ip =>
        (tryBody envCallbackThrows [samplePlayer, samplePlayerB].length ip.1 ip.2).1).flatten
        ++ Event.progress (0 + 1) [samplePlayer, samplePlayerB].length samplePlayer.name
        :: ((List.enumFrom (0 + 1) ([samplePlayer, samplePlayerB].drop (0 + 1))).map fun ip =>
             (tryBody envCallbackThrows [samplePlayer, samplePlayerB].length ip.1 ip.2).1).flatten ∧
    (samplePlayer.name, jsErrorMessage callbackError) ∈
      (bulkImportPlayers envCallbackThrows [samplePlayer, samplePlayerB]).failed :=
  bulkImport_progress_throw envCallbackThrows [samplePlayer, samplePlayerB] 0
    samplePlayer callbackError rfl rfl rfl

end KPLUI
